import Mathlib

/-
Verification of the terminal-synced file browser core (TypeScript sources
src/extension.ts and src/globTool.ts): listing options, the two sorting
paths, cd-target extraction, permission strings, file-type detection,
human-readable sizes, and glob matching with brace expansion.

Machine integers of the source are modelled as Nat/Int; JavaScript numbers
that only ever hold exact small values (sizes, mode bits, timestamps in
milliseconds) are modelled as Nat/Int, and the floating-point divisions of
the size formatter as exact numerator/denominator arithmetic (every
division by 1024 performed on the sizes in question is exact in IEEE
doubles as well).
-/

namespace TerminalSync

/-- Whitespace test modelling the JavaScript regex class \s and the
whitespace notion of String.prototype.trim, restricted to the ASCII
whitespace characters that occur in shell command lines. -/
def isWsChar (c : Char) : Bool :=
  c = ' ' || c = '\t' || c = '\n' || c = '\r'

/-- Primary collation weight of one ASCII character: letters compare by
their case-folded identity and sort after all punctuation and digits,
mirroring the root (default) ICU collation used by JavaScript
String.prototype.localeCompare. -/
def charPrimary (c : Char) : Nat :=
  if c.isAlpha then 256 + c.toLower.toNat else 1 + c.toNat

/-- Tertiary (case) collation weight: lowercase before uppercase, as in the
root ICU collation. -/
def charTertiary (c : Char) : Nat :=
  if c.isUpper then 1 else 0

/-- Collation key of a string: the full primary weight sequence, a
level separator, then the full tertiary weight sequence, so that any
primary difference outweighs every case difference. -/
def collKey (s : List Char) : List Nat :=
  s.map charPrimary ++ 0 :: s.map charTertiary

/-- Model of JavaScript String.prototype.localeCompare (no explicit locale)
for the ASCII strings this program compares: the default ICU collation,
which orders punctuation such as the dot before digits and letters, compares
letters case-insensitively at the primary level, and breaks case ties with
lowercase first. -/
def localeCompare (a b : String) : Int :=
  if collKey a.data = collKey b.data then 0
  else if collKey a.data < collKey b.data then -1
  else 1

/-- Direntry-level record used by both sorting paths: the name and
directory flag come from fs.Dirent, and mtimeMs/size carry the numbers the
code obtains from fs.promises.stat (the code substitutes 0 for either when
the stat call fails, so a failed stat is represented by the value 0). -/
structure DirEntry where
  name : String
  isDir : Bool
  mtimeMs : Int
  size : Int
deriving DecidableEq, Repr

/-- Sort keys of interface LsOptions, field sortBy:
the string union 'name' | 'time' | 'size' | 'none'. -/
inductive SortKey where
  | name
  | time
  | size
  | none
deriving DecidableEq, Repr

/-- interface LsOptions from src/extension.ts (lines 26-33). -/
structure LsOptions where
  showHidden : Bool
  longFormat : Bool
  sortBy : SortKey
  reverseSort : Bool
  humanReadable : Bool
  classify : Bool
deriving DecidableEq, Repr

/-- Model of ECMAScript Array.prototype.sort with a consistent comparator:
the result is the unique stable ordering in which a precedes b whenever
cmp a b ≤ 0; insertion sort with the reflexive relation cmp a b ≤ 0 is
exactly that stable sort. -/
def jsSortBy {α : Type} (cmp : α → α → Int) (l : List α) : List α :=
  List.insertionSort (fun a b => cmp a b ≤ 0) l

/-- Comparator of the name branch of RemoteFileExplorer.sortEntries
(src/extension.ts lines 499-503): directories first, then
a.name.localeCompare(b.name). -/
def nameCompare (a b : DirEntry) : Int :=
  if a.isDir && !b.isDir then -1
  else if !a.isDir && b.isDir then 1
  else localeCompare a.name b.name

/-- RemoteFileExplorer.sortEntries (src/extension.ts lines 489-540): early
return for sortBy 'none' (the reverse flag is never reached), name sort via
nameCompare, time and size sorts descending by the comparators
b.mtime - a.mtime and b.size - a.size, then an in-place reverse when
reverseSort is set. -/
def sortEntries (opts : LsOptions) (entries : List DirEntry) : List DirEntry :=
  if opts.sortBy = SortKey.none then entries
  else
    let sorted :=
      match opts.sortBy with
      | SortKey.name => jsSortBy nameCompare entries
      | SortKey.time => jsSortBy (fun a b => b.mtimeMs - a.mtimeMs) entries
      | SortKey.size => jsSortBy (fun a b => b.size - a.size) entries
      | SortKey.none => entries
    if opts.reverseSort then sorted.reverse else sorted

/-- Comparator of the fileData.sort callback in updateLsTableView
(src/extension.ts lines 699-713): 0 for sortBy 'none', directories first
then localeCompare for 'name', descending time and size otherwise. -/
def tableCompare (opts : LsOptions) (a b : DirEntry) : Int :=
  match opts.sortBy with
  | SortKey.none => 0
  | SortKey.name =>
      if a.isDir && !b.isDir then -1
      else if !a.isDir && b.isDir then 1
      else localeCompare a.name b.name
  | SortKey.time => b.mtimeMs - a.mtimeMs
  | SortKey.size => b.size - a.size

/-- The sorting step of updateLsTableView (src/extension.ts lines 699-717):
one sort call with tableCompare, then an in-place reverse when reverseSort
is set (unlike sortEntries there is no early return for 'none'). -/
def updateLsTableSort (opts : LsOptions) (files : List DirEntry) : List DirEntry :=
  let sorted := jsSortBy (tableCompare opts) files
  if opts.reverseSort then sorted.reverse else sorted

/-- List form of String.prototype.trim (ASCII whitespace). -/
def trimList (l : List Char) : List Char :=
  ((l.dropWhile isWsChar).reverse.dropWhile isWsChar).reverse

/-- Accumulator-based splitting of a command line on whitespace runs,
modelling command.trim().split(regex of one-or-more whitespace): the
empty tokens a leading or trailing run would produce are exactly the ones
trim removes, and no other empty token can arise. -/
def wordsAux (l : List Char) (acc : List Char) : List (List Char) :=
  match l with
  | [] => if acc.isEmpty then [] else [acc.reverse]
  | c :: rest =>
      if isWsChar c then
        if acc.isEmpty then wordsAux rest [] else acc.reverse :: wordsAux rest []
      else wordsAux rest (c :: acc)

/-- Default LsOptions literal built at the top of parseLsOptions
(src/extension.ts lines 236-243). -/
def defaultLsOptions : LsOptions :=
  { showHidden := false, longFormat := false, sortBy := SortKey.name,
    reverseSort := false, humanReadable := false, classify := false }

/-- Effect of one whitespace-separated token on the option record: the body
of the for-loop of parseLsOptions (src/extension.ts lines 248-279),
including its substring-membership tests (part.includes of a single
letter) applied to the whole token. -/
def applyLsFlag (opts : LsOptions) (part : List Char) : LsOptions :=
  if !(match part with | c :: _ => c = '-' | [] => false) then opts
  else
    let o1 := if part = "--all".data || part.contains 'a' then
      { opts with showHidden := true } else opts
    let o2 := if part = "--almost-all".data || part.contains 'A' then
      { o1 with showHidden := true } else o1
    let o3 := if part = "-l".data || part.contains 'l' then
      { o2 with longFormat := true } else o2
    let o4 := if part = "--reverse".data || part.contains 'r' then
      { o3 with reverseSort := true } else o3
    let o5 := if part = "-t".data || part.contains 't' then
      { o4 with sortBy := SortKey.time } else o4
    let o6 := if part = "-S".data || part.contains 'S' then
      { o5 with sortBy := SortKey.size } else o5
    let o7 := if part = "-U".data || part.contains 'U' then
      { o6 with sortBy := SortKey.none } else o6
    let o8 := if part = "--human-readable".data || part.contains 'h' then
      { o7 with humanReadable := true } else o7
    let o9 := if part = "--classify".data || part = "-F".data || part.contains 'F' then
      { o8 with classify := true } else o8
    o9

/-- parseLsOptions (src/extension.ts lines 235-282): trim, split on
whitespace, fold each dash-token's effects over the defaults. -/
def parseLsOptions (command : String) : LsOptions :=
  (wordsAux (trimList command.data) []).foldl applyLsFlag defaultLsOptions

/-- Drop a leading whitespace run, modelling a greedy regex whitespace-star. -/
def dropWsRun (l : List Char) : List Char :=
  l.dropWhile isWsChar

/-- Match of the argument-less-cd regex starting at one anchor position:
optional whitespace, the two letters of cd, optional whitespace, then a
chain operator (two ampersands or a semicolon) or the end of the line.
Models the justCd regex of extractCdTarget (src/extension.ts line 286). -/
def justCdAt (s : List Char) : Bool :=
  match dropWsRun s with
  | c1 :: c2 :: rest =>
      c1 = 'c' && c2 = 'd' &&
        (let r := dropWsRun rest
         r.isEmpty || ['&', '&'].isPrefixOf r || [';'].isPrefixOf r)
  | _ => false

/-- Attempts of the argument-less-cd regex at every non-initial anchor (a
two-ampersand chain or a semicolon), scanning left to right. -/
def anchoredJustCd : List Char → Bool
  | [] => false
  | c :: rest =>
      (c = '&' && (match rest with
        | c2 :: r2 => c2 = '&' && justCdAt r2
        | [] => false))
      || (c = ';' && justCdAt rest)
      || anchoredJustCd rest

/-- Whole-line test of the argument-less-cd regex: an attempt anchored at
the line start, or at any chain operator further right. -/
def isJustCd (s : List Char) : Bool :=
  justCdAt s || anchoredJustCd s

/-- Terminator test of the lazy capture group of the cd-with-argument
regex: the capture stops once the remainder is empty or is a whitespace
run followed by a chain operator. -/
def captureCond (r : List Char) : Bool :=
  r.isEmpty || ['&', '&'].isPrefixOf (dropWsRun r) || [';'].isPrefixOf (dropWsRun r)

/-- Lazy capture of the cd-with-argument regex: the shortest nonempty
prefix whose remainder satisfies the terminator test (the remainder of the
full argument region always does, since the regex accepts end-of-line). -/
def splitCapture : List Char → List Char
  | [] => []
  | c :: r => if captureCond r then [c] else c :: splitCapture r

/-- Match of the cd-with-argument regex at one anchor position: optional
whitespace, the word cd or pushd, mandatory whitespace, then the lazy
capture. Models the cdMatch regex of extractCdTarget (src/extension.ts
line 292). In the degenerate case where only whitespace follows the
command word, the regex backtracks so that the capture is a single
whitespace character, which the subsequent trim reduces to the empty
target; the model returns that empty capture directly. -/
def cdCaptureAt (s : List Char) : Option (List Char) :=
  let s1 := dropWsRun s
  let afterCmd? : Option (List Char) :=
    if ['c', 'd'].isPrefixOf s1 then some (s1.drop 2)
    else if ['p', 'u', 's', 'h', 'd'].isPrefixOf s1 then some (s1.drop 5)
    else Option.none
  match afterCmd? with
  | Option.none => Option.none
  | some afterCmd =>
      match afterCmd with
      | [] => Option.none
      | c :: tail =>
          if isWsChar c then
            match dropWsRun afterCmd with
            | [] => if tail.isEmpty then Option.none else some []
            | r :: rs => some (splitCapture (r :: rs))
          else Option.none

/-- Attempts of the cd-with-argument regex at every non-initial anchor,
scanning left to right (leftmost match wins, as in regex search). -/
def anchoredCdCapture : List Char → Option (List Char)
  | [] => Option.none
  | c :: rest =>
      (if c = '&' then
        (match rest with
         | c2 :: r2 => if c2 = '&' then cdCaptureAt r2 else Option.none
         | [] => Option.none)
       else Option.none)
      <|> (if c = ';' then cdCaptureAt rest else Option.none)
      <|> anchoredCdCapture rest

/-- Whole-line search of the cd-with-argument regex. -/
def cdCapture (s : List Char) : Option (List Char) :=
  cdCaptureAt s <|> anchoredCdCapture s

/-- Strip one leading and one trailing quote character (single or double),
modelling target.replace of the edge-quote regex with the empty string. -/
def stripQuotesEdges (l : List Char) : List Char :=
  let l1 := match l with
    | c :: r => if c = Char.ofNat 34 || c = Char.ofNat 39 then r else l
    | [] => []
  match l1.getLast? with
  | some c =>
      if c = Char.ofNat 34 || c = Char.ofNat 39 then l1.dropLast else l1
  | Option.none => l1

/-- The two environment values extractCdTarget consults (process.env.HOME
and process.env.USERPROFILE); a missing variable is modelled as none. -/
structure EnvVars where
  home : Option String
  userprofile : Option String
deriving DecidableEq, Repr

/-- JavaScript truthiness of a possibly-undefined string value: undefined
and the empty string are falsy. -/
def strTruthy : Option String → Bool
  | Option.none => false
  | some s => !s.data.isEmpty

/-- JavaScript a-or-else-b on possibly-undefined strings. -/
def jsOrStr (a b : Option String) : Option String :=
  if strTruthy a then a else b

/-- Absolute-path test of Node path.isAbsolute on POSIX paths. -/
def isAbsolutePath (l : List Char) : Bool :=
  match l with
  | c :: _ => c = '/'
  | [] => false

/-- Split a path on slash separators, keeping empty segments. -/
def splitOnSlash : List Char → List (List Char)
  | [] => [[]]
  | c :: rest =>
      if c = '/' then [] :: splitOnSlash rest
      else
        match splitOnSlash rest with
        | seg :: segs => (c :: seg) :: segs
        | [] => [[c]]

/-- Collapse empty, single-dot and double-dot segments the way POSIX path
normalization does (double-dot at the root is dropped). -/
def normalizeSegs (segs : List (List Char)) : List (List Char) :=
  segs.foldl (fun acc seg =>
    if seg.isEmpty || seg = ['.'] then acc
    else if seg = ['.', '.'] then acc.dropLast
    else acc ++ [seg]) []

/-- Model of Node path.resolve(cwd, target) on POSIX paths with an
absolute cwd, the only way the extension calls it: join unless the target
is absolute, then normalize. -/
def resolvePath (cwd target : List Char) : List Char :=
  let combined := if isAbsolutePath target then target else cwd ++ '/' :: target
  match normalizeSegs (splitOnSlash combined) with
  | [] => ['/']
  | segs => '/' :: List.intercalate ['/'] segs

/-- extractCdTarget (src/extension.ts lines 284-314), with the implicit
module state made explicit: the current working directory and the two
environment values are parameters. The spec names this operation
resolveCdTarget(line, currentDir). -/
def extractCdTargetCore (line cwd : List Char) (env : EnvVars) : Option (List Char) :=
  if isJustCd line then
    let hd := jsOrStr env.home env.userprofile
    if strTruthy hd then hd.map String.data else Option.none
  else
    match cdCapture line with
    | Option.none => Option.none
    | some cap =>
        let t0 := trimList cap
        let t1 := stripQuotesEdges t0
        if t1 = ['-'] then Option.none
        else
          let t2 :=
            if t1 = ['~'] || ['~', '/'].isPrefixOf t1 then
              let hd := jsOrStr env.home env.userprofile
              if strTruthy hd then (hd.getD "").data ++ t1.drop 1 else t1
            else t1
          let t3 := if !isAbsolutePath t2 && !cwd.isEmpty then resolvePath cwd t2 else t2
          some t3

/-- String-level wrapper of extractCdTargetCore. -/
def extractCdTarget (line cwd : String) (env : EnvVars) : Option String :=
  (extractCdTargetCore line.data cwd.data env).map (fun l => String.mk l)

/-- permissionsFromModeBits (src/globTool.ts lines 274-291): nine
characters derived from the nine low mode bits, each bit independently
tested for JavaScript truthiness (nonzero). -/
def permissionsFromModeBits (mode : Nat) : String :=
  String.mk [
    if mode &&& 0o400 ≠ 0 then 'r' else '-',
    if mode &&& 0o200 ≠ 0 then 'w' else '-',
    if mode &&& 0o100 ≠ 0 then 'x' else '-',
    if mode &&& 0o040 ≠ 0 then 'r' else '-',
    if mode &&& 0o020 ≠ 0 then 'w' else '-',
    if mode &&& 0o010 ≠ 0 then 'x' else '-',
    if mode &&& 0o004 ≠ 0 then 'r' else '-',
    if mode &&& 0o002 ≠ 0 then 'w' else '-',
    if mode &&& 0o001 ≠ 0 then 'x' else '-']

/-- Spec-side decoder of the round-trip property: map each of the nine
permission characters back to its corresponding bit and sum. -/
def parsePermissions (s : String) : Nat :=
  (s.data.zip [0o400, 0o200, 0o100, 0o040, 0o020, 0o010, 0o004, 0o002, 0o001]).foldl
    (fun acc p => acc + if p.1 ≠ '-' then p.2 else 0) 0

/-- interface FileTypeFlags (src/globTool.ts fileData.ts part, lines
82-90). -/
structure FileTypeFlags where
  isRegularFile : Bool
  isDirectory : Bool
  isSymlink : Bool
  isFIFO : Bool
  isSocket : Bool
  isCharacterDevice : Bool
  isBlockDevice : Bool
deriving DecidableEq, Repr

def S_IFIFO : Nat := 0o010000

def S_IFCHR : Nat := 0o020000

def S_IFDIR : Nat := 0o040000

def S_IFBLK : Nat := 0o060000

def S_IFREG : Nat := 0o100000

def S_IFLNK : Nat := 0o120000

def S_IFSOCK : Nat := 0o140000

def S_IFMT : Nat := 0o170000

/-- detectFileType (src/globTool.ts fileData.ts part, lines 133-145):
mask the mode word with S_IFMT and compare against each file-type
constant. -/
def detectFileType (mode : Nat) : FileTypeFlags :=
  let m := mode &&& S_IFMT
  { isRegularFile := m == S_IFREG
    isDirectory := m == S_IFDIR
    isSymlink := m == S_IFLNK
    isFIFO := m == S_IFIFO
    isSocket := m == S_IFSOCK
    isCharacterDevice := m == S_IFCHR
    isBlockDevice := m == S_IFBLK }

/-- Number of type flags that are set. -/
def countTrueFlags (f : FileTypeFlags) : Nat :=
  (if f.isRegularFile then 1 else 0) + (if f.isDirectory then 1 else 0) +
  (if f.isSymlink then 1 else 0) + (if f.isFIFO then 1 else 0) +
  (if f.isSocket then 1 else 0) + (if f.isCharacterDevice then 1 else 0) +
  (if f.isBlockDevice then 1 else 0)

def sizeUnits : List String := ["B", "K", "M", "G", "T", "P", "E"]

/-- Round the nonnegative exact value num/den to the nearest integer,
ties away from zero: the rounding JavaScript Number.prototype.toFixed(0)
performs. -/
def ratRound (num den : Nat) : Nat :=
  (2 * num + den) / (2 * den)

/-- JavaScript Number.prototype.toFixed(0) on the nonnegative exact value
num/den. -/
def toFixed0 (num den : Nat) : String :=
  Nat.repr (ratRound num den)

/-- JavaScript Number.prototype.toFixed(1) on the nonnegative exact value
num/den: round to one decimal place, ties away from zero, always printing
exactly one digit after the point. -/
def toFixed1 (num den : Nat) : String :=
  let n := ratRound (10 * num) den
  Nat.repr (n / 10) ++ "." ++ Nat.repr (n % 10)

/-- The while-loop of formatSize (src/globTool.ts lines 242-246): divide
by 1024 while the value is at least 1024 and a larger unit exists. After
k iterations the value is exactly bytes / 1024^k (the divisions are exact
in IEEE doubles for every representable byte count), so the loop state is
carried as the unit index alone and the guard value-at-least-1024 is the
equivalent integer test 1024^(k+1) ≤ bytes. The fuel argument only bounds
the recursion; the index guard stops the loop after at most six
iterations, so a fuel of seven is never exhausted. -/
def selectUnitIdx : Nat → Nat → Nat → Nat
  | 0, _, idx => idx
  | fuel + 1, bytes, idx =>
      if 1024 ^ (idx + 1) ≤ bytes ∧ idx < 6 then selectUnitIdx fuel bytes (idx + 1)
      else idx

/-- Rounded numeral and unit index of formatSize (src/globTool.ts lines
236-254) before the final suffix decision: the scaled value is
bytes / 1024^idx, so value-at-least-10 is 10 * 1024^idx ≤ bytes and
Number.isInteger(value) is divisibility of bytes by 1024^idx. -/
def formatSizeParts (bytes : Nat) : String × Nat :=
  let idx := selectUnitIdx 7 bytes 0
  let den := 1024 ^ idx
  let rounded :=
    if 10 * den ≤ bytes ∨ bytes % den = 0 then toFixed0 bytes den else toFixed1 bytes den
  (rounded, idx)

/-- formatSize (src/globTool.ts lines 236-262): the rounded numeral alone
when the unit index is zero, otherwise the numeral followed by the unit
letter. -/
def formatSize (bytes : Nat) : String :=
  let p := formatSizeParts bytes
  if p.2 = 0 then p.1 else p.1 ++ (sizeUnits.getD p.2 "")

/-- The spec's humanSize(bytes, humanReadable): the humanReadable branch
is formatSize of src/globTool.ts (the cited source of the claim); the
other branch is the raw decimal byte count the callers print when the
human-readable option is off. -/
def humanSize (bytes : Nat) (humanReadable : Bool) : String :=
  if humanReadable then formatSize bytes else Nat.repr bytes

/-- Decimal digit run to number, modelling parseInt(s, 10) on the
all-digit strings the numeric-range regex accepts. -/
def parseDigits (l : List Char) : Nat :=
  l.foldl (fun acc c => acc * 10 + (c.toNat - 48)) 0

/-- String.prototype.padStart(width, "0"). -/
def padStartZeros (s : List Char) (width : Nat) : List Char :=
  if width ≤ s.length then s else List.replicate (width - s.length) '0' ++ s

def natRepr (n : Nat) : List Char :=
  (Nat.repr n).data

/-- Numeric-range expansions of a brace body (src/globTool.ts lines
33-44): ascending or descending inclusive range, each element zero-padded
to the wider bound's width. -/
def numRangeExpansions (a b : List Char) : List (List Char) :=
  let start := parseDigits a
  let stop := parseDigits b
  let width := max a.length b.length
  if start ≤ stop then
    (List.range (stop + 1 - start)).map (fun k => padStartZeros (natRepr (start + k)) width)
  else
    (List.range (start + 1 - stop)).map (fun k => padStartZeros (natRepr (start - k)) width)

/-- Alphabetic-range expansions (src/globTool.ts lines 47-55): single
characters from the first code point to the second, in either
direction. -/
def alphaRangeExpansions (c1 c2 : Char) : List (List Char) :=
  let start := c1.toNat
  let stop := c2.toNat
  if start ≤ stop then
    (List.range (stop + 1 - start)).map (fun k => [Char.ofNat (start + k)])
  else
    (List.range (start + 1 - stop)).map (fun k => [Char.ofNat (start - k)])

/-- Match of the anchored numeric-range regex (digits, two dots, digits)
against a brace body. -/
def splitNumRange (body : List Char) : Option (List Char × List Char) :=
  let a := body.takeWhile (·.isDigit)
  match body.drop a.length with
  | '.' :: '.' :: b =>
      if !a.isEmpty && !b.isEmpty && b.all (·.isDigit) then some (a, b) else Option.none
  | _ => Option.none

/-- Match of the anchored alphabetic-range regex (one ASCII letter, two
dots, one ASCII letter) against a brace body. -/
def splitAlphaRange (body : List Char) : Option (Char × Char) :=
  match body with
  | [c1, d1, d2, c2] =>
      if c1.isAlpha && d1 = '.' && d2 = '.' && c2.isAlpha then some (c1, c2)
      else Option.none
  | _ => Option.none

/-- Split a brace body on commas, keeping empty alternatives, modelling
body.split on the comma. -/
def splitOnComma : List Char → List (List Char)
  | [] => [[]]
  | c :: rest =>
      if c = ',' then [] :: splitOnComma rest
      else
        match splitOnComma rest with
        | seg :: segs => (c :: seg) :: segs
        | [] => [[c]]

/-- Leftmost brace pair of the pattern, as matched by the lazy-prefix
brace regex of expandBraces: the part before the first opening brace, the
brace-free body up to the next closing brace, and the rest. None when no
such pair exists (then the regex fails and the pattern stays literal). -/
def findBrace : List Char → Option (List Char × List Char × List Char)
  | [] => Option.none
  | c :: rest =>
      if c = '{' then
        let body := rest.takeWhile (fun d => d != '}')
        match rest.drop body.length with
        | '}' :: suf => some ([], body, suf)
        | _ => Option.none
      else
        match findBrace rest with
        | some (pre, body, suf) => some (c :: pre, body, suf)
        | Option.none => Option.none

/-- Append new expansions, skipping ones already present, modelling the
insertion-ordered JavaScript Set that deduplicates results. -/
def dedupAppend (acc : List (List Char)) (xs : List (List Char)) : List (List Char) :=
  xs.foldl (fun a x => if a.contains x then a else a ++ [x]) acc

/-- expandBraces (src/globTool.ts lines 22-76), with a fuel argument that
only bounds the recursion depth: every recursive call is on a pattern at
least two characters shorter (one brace pair is consumed and no
replacement part is longer than the body it came from), so a fuel of the
pattern length is never exhausted. -/
def expandBracesF : Nat → List Char → List (List Char)
  | 0, pat => [pat]
  | fuel + 1, pat =>
      match findBrace pat with
      | Option.none => [pat]
      | some (pre, body, suf) =>
          let expansions : Option (List (List Char)) :=
            match splitNumRange body with
            | some (a, b) => some (numRangeExpansions a b)
            | Option.none =>
                match splitAlphaRange body with
                | some (c1, c2) => some (alphaRangeExpansions c1 c2)
                | Option.none =>
                    if body.contains ',' then some (splitOnComma body) else Option.none
          match expansions with
          | Option.none => [pat]
          | some parts =>
              parts.foldl (fun acc part =>
                dedupAppend acc (expandBracesF fuel (pre ++ part ++ suf))) []

/-- String-level expandBraces. -/
def expandBraces (pat : String) : List String :=
  (expandBracesF pat.data.length pat.data).map (fun l => String.mk l)

/-- Glob matching against one expanded pattern, on the feature subset the
expanded patterns of this program use: literal characters, the star
wildcard and the question mark, case-sensitively and with no special
treatment of a leading dot (minimatch options nocase:false and dot:true).
The fuel argument only bounds the recursion; every step shortens the
pattern or the candidate, so a fuel of their combined length is never
exhausted. -/
def matchGlobF : Nat → List Char → List Char → Bool
  | 0, _, _ => false
  | _ + 1, [], s => s.isEmpty
  | fuel + 1, '*' :: ps, s =>
      matchGlobF fuel ps s ||
        (match s with
         | [] => false
         | _ :: s2 => matchGlobF fuel ('*' :: ps) s2)
  | fuel + 1, '?' :: ps, s =>
      match s with
      | [] => false
      | _ :: s2 => matchGlobF fuel ps s2
  | fuel + 1, c :: ps, s =>
      match s with
      | [] => false
      | d :: s2 => c = d && matchGlobF fuel ps s2

def minimatchCore (name pat : List Char) : Bool :=
  matchGlobF (pat.length + name.length + 1) pat name

/-- Final path segment of a slash-separated name. -/
def lastSegment (l : List Char) : List Char :=
  ((splitOnSlash l).getLast?).getD l

/-- Model of the external minimatch library as called by matchesGlob:
with option matchBase, a pattern without a slash is matched against the
final path segment of the candidate name. -/
def minimatchModel (name pat : List Char) : Bool :=
  if pat.contains '/' then minimatchCore name pat
  else minimatchCore (if name.contains '/' then lastSegment name else name) pat

/-- matchesGlob (src/globTool.ts lines 7-21): an empty pattern matches
nothing, otherwise the name matches if any brace expansion of the pattern
matches. -/
def matchesGlob (filename pat : String) : Bool :=
  if pat.length = 0 then false
  else (expandBraces pat).any (fun p => minimatchModel filename.data p.data)

theorem stringMk_data : ∀ s : String, String.mk s.data = s
  | ⟨_⟩ => rfl

theorem localeCompare_le_iff (a b : String) :
    localeCompare a b ≤ 0 ↔ collKey a.data ≤ collKey b.data := by
  unfold localeCompare
  split_ifs with h1 h2
  · simp [le_of_eq h1]
  · simp [le_of_lt h2]
  · have h3 : collKey b.data < collKey a.data :=
      lt_of_le_of_ne (le_of_not_lt h2) (fun e => h1 e.symm)
    simp [not_le_of_lt h3]

theorem localeCompare_le_total (a b : String) :
    localeCompare a b ≤ 0 ∨ localeCompare b a ≤ 0 := by
  rcases le_total (collKey a.data) (collKey b.data) with h | h
  · exact Or.inl ((localeCompare_le_iff a b).mpr h)
  · exact Or.inr ((localeCompare_le_iff b a).mpr h)

theorem localeCompare_le_trans {a b c : String}
    (h1 : localeCompare a b ≤ 0) (h2 : localeCompare b c ≤ 0) :
    localeCompare a c ≤ 0 :=
  (localeCompare_le_iff a c).mpr
    (le_trans ((localeCompare_le_iff a b).mp h1) ((localeCompare_le_iff b c).mp h2))

theorem nameCompare_le_total (a b : DirEntry) :
    nameCompare a b ≤ 0 ∨ nameCompare b a ≤ 0 := by
  cases ha : a.isDir <;> cases hb : b.isDir <;>
    simp [nameCompare, ha, hb] <;>
    exact localeCompare_le_total a.name b.name

theorem nameCompare_le_trans {a b c : DirEntry}
    (h1 : nameCompare a b ≤ 0) (h2 : nameCompare b c ≤ 0) :
    nameCompare a c ≤ 0 := by
  cases ha : a.isDir <;> cases hb : b.isDir <;> cases hc : c.isDir <;>
    simp [nameCompare, ha, hb, hc] at h1 h2 ⊢ <;>
    exact localeCompare_le_trans h1 h2

theorem sorted_jsSortBy_nameCompare (l : List DirEntry) :
    List.Sorted (fun a b => nameCompare a b ≤ 0) (jsSortBy nameCompare l) := by
  haveI : IsTotal DirEntry (fun a b => nameCompare a b ≤ 0) := ⟨nameCompare_le_total⟩
  haveI : IsTrans DirEntry (fun a b => nameCompare a b ≤ 0) :=
    ⟨fun _ _ _ h1 h2 => nameCompare_le_trans h1 h2⟩
  exact List.sorted_insertionSort _ l

/-- Relational content of the directories-first name comparator: a
directory never follows a non-directory, and two entries of the same kind
are in locale order. -/
def dirsFirstByName (a b : DirEntry) : Prop :=
  (b.isDir = true → a.isDir = true) ∧
  (a.isDir = b.isDir → localeCompare a.name b.name ≤ 0)

theorem nameCompare_le_imp {a b : DirEntry} (h : nameCompare a b ≤ 0) :
    dirsFirstByName a b := by
  cases ha : a.isDir <;> cases hb : b.isDir <;>
    simp_all [nameCompare, dirsFirstByName, ha, hb]

theorem tableCompare_name_eq {opts : LsOptions} (hs : opts.sortBy = SortKey.name) :
    tableCompare opts = nameCompare := by
  funext a b
  simp [tableCompare, nameCompare, hs]

/-- C10: with the name sort key (and no reverse), both the tree-view path
(RemoteFileExplorer.sortEntries) and the table-view path
(updateLsTableView's sort) place every directory before every
non-directory, and order each of the two groups by locale comparison. -/
theorem c10_name_sort_segregates_directories :
    ∀ (opts : LsOptions) (entries : List DirEntry),
      opts.sortBy = SortKey.name → opts.reverseSort = false →
      List.Pairwise dirsFirstByName (sortEntries opts entries) ∧
      List.Pairwise dirsFirstByName (updateLsTableSort opts entries) := by
  intro opts entries hs hr
  have hsorted := sorted_jsSortBy_nameCompare entries
  have hpair : List.Pairwise dirsFirstByName (jsSortBy nameCompare entries) :=
    List.Pairwise.imp (fun h => nameCompare_le_imp h) hsorted
  constructor
  · simpa [sortEntries, hs, hr] using hpair
  · simpa [updateLsTableSort, tableCompare_name_eq hs, hr] using hpair

/-- The five entries of the sorting example: the two synthetic dot
entries are directories, the other three are plain files. -/
def c1Entries : List DirEntry :=
  [{ name := ".hidden", isDir := false, mtimeMs := 0, size := 0 },
   { name := "Zeta", isDir := false, mtimeMs := 0, size := 0 },
   { name := "apple", isDir := false, mtimeMs := 0, size := 0 },
   { name := ".", isDir := true, mtimeMs := 0, size := 0 },
   { name := "..", isDir := true, mtimeMs := 0, size := 0 }]

/-- C10 witness: the segregation property evaluated on the concrete
five-entry listing with the default (name, no reverse) options. -/
theorem c10_name_sort_segregates_directories_witness :
    List.Pairwise dirsFirstByName (sortEntries defaultLsOptions c1Entries) ∧
    List.Pairwise dirsFirstByName (updateLsTableSort defaultLsOptions c1Entries) :=
  c10_name_sort_segregates_directories defaultLsOptions c1Entries rfl rfl

/-- C1 counterexample: on the example input the name sort does not
produce the claimed order (the code compares with localeCompare, which
sorts the un-stripped leading dot before every letter, so ".hidden"
precedes "apple"). -/
theorem c1_counterexample :
    (sortEntries defaultLsOptions c1Entries).map DirEntry.name ≠
      [".", "..", "apple", ".hidden", "Zeta"] := by decide

/-- C1 (amended): sorting the example entries by name yields
[".", "..", ".hidden", "apple", "Zeta"] in both sorting paths: the
leading dot is not stripped, and the locale comparison orders it before
all letters. -/
theorem c1_sort_by_name_example :
    (sortEntries defaultLsOptions c1Entries).map DirEntry.name =
      [".", "..", ".hidden", "apple", "Zeta"] ∧
    (updateLsTableSort defaultLsOptions c1Entries).map DirEntry.name =
      [".", "..", ".hidden", "apple", "Zeta"] := by decide

/-- C2 counterexample: the almost-all flag is indistinguishable from the
all flag in the returned record; there is no almostAll field for it to
set, so parsing "-lAht" and "-laht" gives identical options. -/
theorem c2_counterexample :
    parseLsOptions "-lAht" = parseLsOptions "-laht" := by decide

/-- C2 (amended): parseLsOptions "-lAht" sets longFormat, showHidden,
humanReadable and the time sort key; the record has no almostAll field,
the -A flag setting only showHidden exactly as -a does. -/
theorem c2_parse_lAht :
    parseLsOptions "-lAht" =
      { showHidden := true, longFormat := true, sortBy := SortKey.time,
        reverseSort := false, humanReadable := true, classify := false } := by decide

def sortNoneRev : LsOptions :=
  { defaultLsOptions with sortBy := SortKey.none, reverseSort := true }

def sortNoneFwd : LsOptions :=
  { defaultLsOptions with sortBy := SortKey.none, reverseSort := false }

def entryA : DirEntry := { name := "a", isDir := false, mtimeMs := 0, size := 0 }

def entryB : DirEntry := { name := "b", isDir := false, mtimeMs := 0, size := 0 }

/-- C3 counterexample: with the unsorted key, sortEntries returns before
the reverse step is reached, so the reverse flag does not invert the
input order. -/
theorem c3_counterexample :
    ¬ (sortEntries sortNoneRev [entryA, entryB] =
        (sortEntries sortNoneFwd [entryA, entryB]).reverse) := by decide

/-- C3 (amended): for the name, time and size sort keys the reverse flag
yields exactly the reversal of the unreversed result; for the unsorted
key the reverse flag is ignored and the input order is returned
unchanged. -/
theorem c3_reverse_inverts_sorted_order :
    ∀ (opts : LsOptions) (entries : List DirEntry),
      (opts.sortBy ≠ SortKey.none →
        sortEntries { opts with reverseSort := true } entries =
          (sortEntries { opts with reverseSort := false } entries).reverse) ∧
      (opts.sortBy = SortKey.none →
        ∀ r, sortEntries { opts with reverseSort := r } entries = entries) := by
  intro opts entries
  constructor
  · intro h
    cases hs : opts.sortBy
    · simp [sortEntries, hs]
    · simp [sortEntries, hs]
    · simp [sortEntries, hs]
    · exact absurd hs h
  · intro h r
    simp [sortEntries, h]

/-- C3 witness: the reversal identity evaluated at the time sort key on a
concrete two-entry listing. -/
theorem c3_reverse_inverts_sorted_order_witness :
    sortEntries { defaultLsOptions with sortBy := SortKey.time, reverseSort := true }
        [entryA, entryB] =
      (sortEntries { defaultLsOptions with sortBy := SortKey.time, reverseSort := false }
        [entryA, entryB]).reverse := by
  have h := (c3_reverse_inverts_sorted_order
    { defaultLsOptions with sortBy := SortKey.time } [entryA, entryB]).1 (by decide)
  simpa using h

set_option maxRecDepth 8192 in
/-- C5: for every nine-bit permission value, decoding the characters of
permissionsFromModeBits reproduces the value masked to nine bits. -/
theorem c5_permission_string_round_trip :
    ∀ m : Nat, m ≤ 0o777 → parsePermissions (permissionsFromModeBits m) = m &&& 0o777 := by
  decide

/-- C5 witness: the round trip evaluated at the mode 0o754. -/
theorem c5_permission_string_round_trip_witness :
    parsePermissions (permissionsFromModeBits 0o754) = 0o754 &&& 0o777 :=
  c5_permission_string_round_trip 0o754 (by decide)

/-- C6: the comma list matches exactly its alternatives, and the numeric
range expands with zero-padding to the wider bound's width, so that
img05.png is among the expansions of the 01..10 range. -/
theorem c6_brace_expansion_matching :
    matchesGlob "file2.txt" "file\x7b1,2,3\x7d.txt" = true ∧
    matchesGlob "file4.txt" "file\x7b1,2,3\x7d.txt" = false ∧
    matchesGlob "img05.png" "img\x7b01..10\x7d.png" = true ∧
    (expandBraces "img\x7b01..10\x7d.png").contains "img05.png" = true := by
  decide

def envHome : EnvVars := { home := some "/home/u", userprofile := Option.none }

/-- C4: extractCdTarget (the spec's resolveCdTarget) resolves "cd .."
against /a/b/c to /a/b for every environment, resolves bare "cd" to the
home directory drawn from the environment, and yields none for "cd -". -/
theorem c4_resolve_cd_target :
    ∀ env : EnvVars,
      extractCdTarget "cd .." "/a/b/c" env = some "/a/b" ∧
      (∀ h : String, env.home = some h → h.data.isEmpty = false →
        extractCdTarget "cd" "/a/b" env = some h) ∧
      extractCdTarget "cd -" "/a/b" env = Option.none := by
  intro env
  refine ⟨rfl, ?_, rfl⟩
  intro h hh hne
  have hj : isJustCd ("cd".data) = true := by decide
  have hs : strTruthy (some h) = true := by simp [strTruthy, hne]
  have hor : jsOrStr env.home env.userprofile = some h := by simp [jsOrStr, hh, hs]
  simp [extractCdTarget, extractCdTargetCore, hj, hor, hs, stringMk_data]

/-- C4 witness: the bare-cd case evaluated with a concrete home
directory in the environment. -/
theorem c4_resolve_cd_target_witness :
    extractCdTarget "cd" "/a/b" envHome = some "/home/u" :=
  (c4_resolve_cd_target envHome).2.1 "/home/u" rfl (by decide)

theorem selectUnitIdx_le :
    ∀ (fuel bytes idx : Nat), idx ≤ 6 → selectUnitIdx fuel bytes idx ≤ 6 := by
  intro fuel
  induction fuel with
  | zero => intro bytes idx h; simpa [selectUnitIdx] using h
  | succ n ih =>
      intro bytes idx h
      by_cases hc : 1024 ^ (idx + 1) ≤ bytes ∧ idx < 6
      · simpa [selectUnitIdx, hc] using ih bytes (idx + 1) (by omega)
      · simpa [selectUnitIdx, hc] using h

/-- C7: the concrete human-readable sizes of the spec, and the suffix
rule: the rendered size equals the bare rounded numeral (no unit suffix)
exactly when the selected unit index is zero. -/
theorem c7_human_size :
    humanSize 0 true = "0" ∧
    humanSize 1023 true = "1023" ∧
    humanSize 1536 true = "1.5K" ∧
    humanSize 10240 true = "10K" ∧
    ∀ bytes : Nat,
      (humanSize bytes true = (formatSizeParts bytes).1 ↔ (formatSizeParts bytes).2 = 0) := by
  refine ⟨by decide, by decide, by decide, by decide, ?_⟩
  intro bytes
  constructor
  · intro hEq
    by_contra hne
    have hle : (formatSizeParts bytes).2 ≤ 6 := by
      simpa [formatSizeParts] using selectUnitIdx_le 7 bytes 0 (by omega)
    have hpos : 1 ≤ (formatSizeParts bytes).2 := by omega
    have hunit : (sizeUnits.getD (formatSizeParts bytes).2 "").length = 1 := by
      set k := (formatSizeParts bytes).2 with hk
      interval_cases k <;> decide
    have hEq2 : (formatSizeParts bytes).1 ++ sizeUnits.getD (formatSizeParts bytes).2 ""
        = (formatSizeParts bytes).1 := by
      simpa [humanSize, formatSize, hne] using hEq
    have := congrArg String.length hEq2
    rw [String.length_append] at this
    omega
  · intro h0
    simp [humanSize, formatSize, h0]

/-- C9 counterexample: a mode word whose type field matches none of the
seven known constants (zero, for instance) produces all-false type
flags, so the seven flags are not "never all false". -/
theorem c9_counterexample : countTrueFlags (detectFileType 0) = 0 := by decide

/-- Flag bookkeeping of detectFileType stated over the already-masked
type field. -/
theorem maskedTypeFlags_spec :
    ∀ k : Nat,
      countTrueFlags
        { isRegularFile := k == S_IFREG, isDirectory := k == S_IFDIR,
          isSymlink := k == S_IFLNK, isFIFO := k == S_IFIFO,
          isSocket := k == S_IFSOCK, isCharacterDevice := k == S_IFCHR,
          isBlockDevice := k == S_IFBLK } ≤ 1 ∧
      (countTrueFlags
        { isRegularFile := k == S_IFREG, isDirectory := k == S_IFDIR,
          isSymlink := k == S_IFLNK, isFIFO := k == S_IFIFO,
          isSocket := k == S_IFSOCK, isCharacterDevice := k == S_IFCHR,
          isBlockDevice := k == S_IFBLK } = 1 ↔
        k ∈ [S_IFREG, S_IFDIR, S_IFLNK, S_IFIFO, S_IFSOCK, S_IFCHR, S_IFBLK]) := by
  intro k
  by_cases h1 : k = S_IFREG
  · subst h1; decide
  by_cases h2 : k = S_IFDIR
  · subst h2; decide
  by_cases h3 : k = S_IFLNK
  · subst h3; decide
  by_cases h4 : k = S_IFIFO
  · subst h4; decide
  by_cases h5 : k = S_IFSOCK
  · subst h5; decide
  by_cases h6 : k = S_IFCHR
  · subst h6; decide
  by_cases h7 : k = S_IFBLK
  · subst h7; decide
  simp [countTrueFlags, beq_iff_eq, h1, h2, h3, h4, h5, h6, h7]

/-- C9 (amended): the seven type flags are mutually exclusive (at most one
is true) for every mode word, and exactly one is true precisely when the
masked type field equals one of the seven known file-type constants;
otherwise all seven are false and the entry falls back to regular-like
display. -/
theorem c9_file_type_flags :
    ∀ mode : Nat,
      countTrueFlags (detectFileType mode) ≤ 1 ∧
      (countTrueFlags (detectFileType mode) = 1 ↔
        mode &&& S_IFMT ∈ [S_IFREG, S_IFDIR, S_IFLNK, S_IFIFO, S_IFSOCK, S_IFCHR, S_IFBLK]) :=
  fun mode => maskedTypeFlags_spec (mode &&& S_IFMT)

def envAbsent : EnvVars := { home := Option.none, userprofile := Option.none }

/-- C8 counterexample: with both home-directory environment values
absent, "cd ~" and "cd ~/docs" do not yield none; the unexpanded tilde is
resolved against the current directory. -/
theorem c8_counterexample :
    extractCdTarget "cd ~" "/a/b" envAbsent = some "/a/b/~" ∧
    extractCdTarget "cd ~/docs" "/a/b" envAbsent = some "/a/b/~/docs" := by
  decide

theorem dropWhile_eq_self_of_all {p : Char → Bool} {l : List Char}
    (h : ∀ c ∈ l, p c = false) : l.dropWhile p = l := by
  cases l with
  | nil => rfl
  | cons c r => simp [List.dropWhile, h c (by simp)]

theorem trimList_eq_self {l : List Char} (h : ∀ c ∈ l, isWsChar c = false) :
    trimList l = l := by
  have h1 : l.dropWhile isWsChar = l := dropWhile_eq_self_of_all h
  have h2 : l.reverse.dropWhile isWsChar = l.reverse :=
    dropWhile_eq_self_of_all (fun c hc => h c (List.mem_reverse.mp hc))
  simp [trimList, h1, h2]

theorem stripQuotesEdges_eq_self {l : List Char}
    (h : ∀ c ∈ l, c ≠ Char.ofNat 34 ∧ c ≠ Char.ofNat 39) :
    stripQuotesEdges l = l := by
  cases l with
  | nil => rfl
  | cons c r =>
      have hc := h c (by simp)
      cases hlast : (c :: r).getLast? with
      | none => simp [stripQuotesEdges, hc.1, hc.2, hlast]
      | some a =>
          have ha := h a (List.mem_of_mem_getLast? hlast)
          simp [stripQuotesEdges, hc.1, hc.2, hlast, ha.1, ha.2]

/-- Characters that may appear in a plain (unquoted, operator-free) cd
argument token. -/
def plainArgChar (c : Char) : Prop :=
  isWsChar c = false ∧ c ≠ '&' ∧ c ≠ ';' ∧ c ≠ Char.ofNat 34 ∧ c ≠ Char.ofNat 39

theorem splitCapture_eq_self :
    ∀ {l : List Char}, (∀ c ∈ l, isWsChar c = false ∧ c ≠ '&' ∧ c ≠ ';') →
      l ≠ [] → splitCapture l = l := by
  intro l
  induction l with
  | nil => intro _ hne; exact absurd rfl hne
  | cons c r ih =>
      intro h _
      cases r with
      | nil => simp [splitCapture, captureCond]
      | cons c2 r2 =>
          have hc2 := h c2 (by simp)
          have hb1 : (('&' : Char) == c2) = false := by
            simp [BEq.beq]
            intro e
            exact hc2.2.1 e.symm
          have hb2 : ((';' : Char) == c2) = false := by
            simp [BEq.beq]
            intro e
            exact hc2.2.2 e.symm
          have hdw : dropWsRun (c2 :: r2) = c2 :: r2 := by
            simp [dropWsRun, List.dropWhile, hc2.1]
          have hcond : captureCond (c2 :: r2) = false := by
            simp [captureCond, hdw, List.isPrefixOf, hb1, hb2]
          have hrec := ih (fun d hd => h d (by simp [hd])) (by simp)
          have hstep : splitCapture (c :: c2 :: r2) = c :: splitCapture (c2 :: r2) := by
            simp [splitCapture, hcond]
          rw [hstep, hrec]

theorem anchoredJustCd_false :
    ∀ {l : List Char}, (∀ c ∈ l, c ≠ '&' ∧ c ≠ ';') → anchoredJustCd l = false := by
  intro l
  induction l with
  | nil => intro _; rfl
  | cons c r ih =>
      intro h
      have hc := h c (by simp)
      simp [anchoredJustCd, hc.1, hc.2, ih (fun d hd => h d (by simp [hd]))]

theorem cdCaptureAt_cd_space (t : List Char) (t2 : List Char) (ht : t = '~' :: t2)
    (hall : ∀ c ∈ t, isWsChar c = false ∧ c ≠ '&' ∧ c ≠ ';') :
    cdCaptureAt ('c' :: 'd' :: ' ' :: t) = some t := by
  subst ht
  have hdw : dropWsRun ('c' :: 'd' :: ' ' :: '~' :: t2) = 'c' :: 'd' :: ' ' :: '~' :: t2 := by
    simp [dropWsRun, List.dropWhile, isWsChar]
  have hdw2 : dropWsRun (' ' :: '~' :: t2) = '~' :: t2 := by
    simp [dropWsRun, List.dropWhile, isWsChar]
  have hsc : splitCapture ('~' :: t2) = '~' :: t2 :=
    splitCapture_eq_self hall (by simp)
  simp [cdCaptureAt, hdw, hdw2, hsc, List.isPrefixOf, isWsChar]

theorem justCdAt_cd_space (t2 : List Char) :
    justCdAt ('c' :: 'd' :: ' ' :: '~' :: t2) = false := by
  have hdw : dropWsRun ('c' :: 'd' :: ' ' :: '~' :: t2) = 'c' :: 'd' :: ' ' :: '~' :: t2 := by
    simp [dropWsRun, List.dropWhile, isWsChar]
  have hdw2 : dropWsRun (' ' :: '~' :: t2) = '~' :: t2 := by
    simp [dropWsRun, List.dropWhile, isWsChar]
  simp [justCdAt, hdw, hdw2, List.isPrefixOf]

/-- C8 (amended): for "cd ~" or "cd ~/path" with a plain path token, when
both home-directory environment values are absent, extractCdTarget leaves
the tilde unexpanded and resolves it against the current directory,
returning that path rather than none. -/
theorem c8_missing_home_tilde :
    ∀ (p cwd : String),
      (∀ c ∈ p.data, plainArgChar c) →
      cwd.data ≠ [] →
      extractCdTarget (String.mk ('c' :: 'd' :: ' ' :: '~' :: '/' :: p.data)) cwd envAbsent =
          some (String.mk (resolvePath cwd.data ('~' :: '/' :: p.data))) ∧
      extractCdTarget "cd ~" cwd envAbsent =
          some (String.mk (resolvePath cwd.data ['~'])) := by
  intro p cwd hp hcwd
  have hcwdE : cwd.data.isEmpty = false := by
    cases hd : cwd.data with
    | nil => exact absurd hd hcwd
    | cons a l => rfl
  constructor
  · have hall : ∀ c ∈ '~' :: '/' :: p.data,
        isWsChar c = false ∧ c ≠ '&' ∧ c ≠ ';' := by
      intro c hcm
      simp only [List.mem_cons] at hcm
      rcases hcm with rfl | rfl | h
      · exact ⟨by decide, by decide, by decide⟩
      · exact ⟨by decide, by decide, by decide⟩
      · exact ⟨(hp c h).1, (hp c h).2.1, (hp c h).2.2.1⟩
    have hcap : cdCaptureAt ('c' :: 'd' :: ' ' :: '~' :: '/' :: p.data) =
        some ('~' :: '/' :: p.data) :=
      cdCaptureAt_cd_space _ ('/' :: p.data) rfl hall
    have hjf : isJustCd ('c' :: 'd' :: ' ' :: '~' :: '/' :: p.data) = false := by
      have h1 := justCdAt_cd_space ('/' :: p.data)
      have h2 : anchoredJustCd ('c' :: 'd' :: ' ' :: '~' :: '/' :: p.data) = false := by
        refine anchoredJustCd_false ?_
        intro c hcm
        simp only [List.mem_cons] at hcm
        rcases hcm with rfl | rfl | rfl | rfl | rfl | h
        · exact ⟨by decide, by decide⟩
        · exact ⟨by decide, by decide⟩
        · exact ⟨by decide, by decide⟩
        · exact ⟨by decide, by decide⟩
        · exact ⟨by decide, by decide⟩
        · exact ⟨(hp c h).2.1, (hp c h).2.2.1⟩
      simp [isJustCd, h1, h2]
    have hcc : cdCapture ('c' :: 'd' :: ' ' :: '~' :: '/' :: p.data) =
        some ('~' :: '/' :: p.data) := by
      simp [cdCapture, hcap]
    have htrim : trimList ('~' :: '/' :: p.data) = '~' :: '/' :: p.data := by
      refine trimList_eq_self ?_
      intro c hcm
      simp only [List.mem_cons] at hcm
      rcases hcm with rfl | rfl | h
      · decide
      · decide
      · exact (hp c h).1
    have hquote : stripQuotesEdges ('~' :: '/' :: p.data) = '~' :: '/' :: p.data := by
      refine stripQuotesEdges_eq_self ?_
      intro c hcm
      simp only [List.mem_cons] at hcm
      rcases hcm with rfl | rfl | h
      · exact ⟨by decide, by decide⟩
      · exact ⟨by decide, by decide⟩
      · exact ⟨(hp c h).2.2.2.1, (hp c h).2.2.2.2⟩
    have hdash : ¬ ('~' :: '/' :: p.data = ['-']) := by
      intro hEq
      injection hEq with h1 _
      exact absurd h1 (by decide)
    have habs : isAbsolutePath ('~' :: '/' :: p.data) = false := by
      simp [isAbsolutePath]
    simp [extractCdTarget, extractCdTargetCore, hjf, hcc, htrim, hquote, hdash,
      habs, hcwdE, jsOrStr, strTruthy, envAbsent, List.isPrefixOf]
  · have hjf : isJustCd ("cd ~".data) = false := by decide
    have hcc : cdCapture ("cd ~".data) = some ['~'] := by decide
    have htrim : trimList ['~'] = ['~'] := by decide
    have hquote : stripQuotesEdges ['~'] = ['~'] := by decide
    have habs : isAbsolutePath ['~'] = false := by decide
    simp [extractCdTarget, extractCdTargetCore, hjf, hcc, htrim, hquote, habs,
      hcwdE, jsOrStr, strTruthy, envAbsent]

/-- C8 witness: the amended behavior evaluated at the concrete line
"cd ~/pics" with current directory /a/b and an empty environment. -/
theorem c8_missing_home_tilde_witness :
    extractCdTarget "cd ~/pics" "/a/b" envAbsent = some "/a/b/~/pics" := by
  have h := (c8_missing_home_tilde "pics" "/a/b"
    (by intro c hc; fin_cases hc <;> exact ⟨by decide, by decide, by decide, by decide, by decide⟩)
    (by decide)).1
  have hline : String.mk ('c' :: 'd' :: ' ' :: '~' :: '/' :: "pics".data) = "cd ~/pics" := by decide
  have hres : String.mk (resolvePath "/a/b".data ('~' :: '/' :: "pics".data)) = "/a/b/~/pics" := by
    decide
  rw [hline, hres] at h
  exact h

end TerminalSync
